import Mathlib

/-!
Verification development for the roisto poller module
(`roisto/poller.py`).  The Python source is shallowly embedded below:
naive Python datetimes become the `NaiveDateTime` structure with exact
calendar arithmetic through a millisecond count, the dict-shaped records
become Lean structures with the same field names, the `cachetools`
LRU cache becomes an explicit association-list model, and the stateful
poll loop becomes explicit state passing.
-/

set_option linter.unusedVariables false

/-- Naive datetime with millisecond precision, mirroring the Python
`datetime.datetime` values carried by the polled rows. -/
structure NaiveDateTime where
  year : Int
  month : Int
  day : Int
  hour : Int
  minute : Int
  second : Int
  millisecond : Int
deriving DecidableEq

/-- Day number of a proleptic-Gregorian civil date, counted from
1970-01-01; this is the calendar arithmetic behind Python datetime
subtraction. -/
def daysFromCivil (y m d : Int) : Int :=
  let yy := if m ≤ 2 then y - 1 else y
  let era := Int.ediv yy 400
  let yoe := yy - era * 400
  let mp := if m ≤ 2 then m + 9 else m - 3
  let doy := Int.ediv (153 * mp + 2) 5 + d - 1
  let doe := yoe * 365 + Int.ediv yoe 4 - Int.ediv yoe 100 + doy
  era * 146097 + doe - 719468

/-- Inverse of `daysFromCivil`: civil date of a day number. -/
def civilFromDays (z0 : Int) : Int × Int × Int :=
  let z := z0 + 719468
  let era := Int.ediv z 146097
  let doe := z - era * 146097
  let yoe :=
    Int.ediv (doe - Int.ediv doe 1460 + Int.ediv doe 36524 - Int.ediv doe 146096) 365
  let y := yoe + era * 400
  let doy := doe - (365 * yoe + Int.ediv yoe 4 - Int.ediv yoe 100)
  let mp := Int.ediv (5 * doy + 2) 153
  let d := doy - Int.ediv (153 * mp + 2) 5 + 1
  let m := if mp < 10 then mp + 3 else mp - 9
  (if m ≤ 2 then y + 1 else y, m, d)

/-- Milliseconds since the epoch of a naive datetime. -/
def NaiveDateTime.toMillis (t : NaiveDateTime) : Int :=
  daysFromCivil t.year t.month t.day * 86400000 +
    (t.hour * 3600000 + t.minute * 60000 + t.second * 1000 + t.millisecond)

/-- Naive datetime of a count of milliseconds since the epoch. -/
def NaiveDateTime.ofMillis (x : Int) : NaiveDateTime :=
  let days := Int.ediv x 86400000
  let rem := Int.emod x 86400000
  let ymd := civilFromDays days
  { year := ymd.1, month := ymd.2.1, day := ymd.2.2,
    hour := Int.ediv rem 3600000,
    minute := Int.ediv (Int.emod rem 3600000) 60000,
    second := Int.ediv (Int.emod rem 60000) 1000,
    millisecond := Int.emod rem 1000 }

/-- Embedding of Python `t - datetime.timedelta(minutes=m)` on naive
datetimes. -/
def subtractMinutes (t : NaiveDateTime) (m : Int) : NaiveDateTime :=
  NaiveDateTime.ofMillis (t.toMillis - m * 60000)

/-- Embedding of Python `(a - b).total_seconds() > threshold` for a
threshold given as a whole number of seconds.  The datetimes have
millisecond precision, so the comparison of the exact difference in
seconds against the threshold is the same comparison scaled to
milliseconds, which keeps the model in exact integer arithmetic. -/
def total_seconds_gt (a b : NaiveDateTime) (threshold : Int) : Bool :=
  decide (a.toMillis - b.toMillis > threshold * 1000)

/-- Embedding of Python `abs((a - b).total_seconds()) >= threshold` for a
threshold given as a whole number of seconds, scaled to milliseconds in
the same exact way as `total_seconds_gt`. -/
def total_seconds_abs_ge (a b : NaiveDateTime) (threshold : Int) : Bool :=
  decide (|a.toMillis - b.toMillis| ≥ threshold * 1000)

/-- Zero-padded rendering of a small integer to at least two digits,
as Python `{:02d}`. -/
def padFix2 (n : Int) : String :=
  if 0 ≤ n ∧ n < 10 then "0" ++ toString n else toString n

/-- Zero-padded rendering to at least three digits, as Python `%03d`. -/
def padFix3 (n : Int) : String :=
  if 0 ≤ n ∧ n < 10 then "00" ++ toString n
  else if 0 ≤ n ∧ n < 100 then "0" ++ toString n
  else toString n

/-- Zero-padded rendering to at least four digits, as Python `%04d`. -/
def padFix4 (n : Int) : String :=
  if 0 ≤ n ∧ n < 10 then "000" ++ toString n
  else if 0 ≤ n ∧ n < 100 then "00" ++ toString n
  else if 0 ≤ n ∧ n < 1000 then "0" ++ toString n
  else toString n

/-- Embedding of `_minutes_to_hours_string`: signed zero-padded
`HH:MM` rendering of a UTC offset given in minutes. -/
def minutes_to_hours_string (minutes : Int) : String :=
  let sign := "+"
  let sign := if minutes < 0 then "-" else sign
  let hours := Int.ediv |minutes| 60
  let minutes_left := Int.emod |minutes| 60
  sign ++ padFix2 hours ++ ":" ++ padFix2 minutes_left

/-- Embedding of Python `naive_datetime.isoformat` with millisecond timespec. -/
def isoformatMilliseconds (t : NaiveDateTime) : String :=
  padFix4 t.year ++ "-" ++ padFix2 t.month ++ "-" ++ padFix2 t.day ++ "T" ++
    padFix2 t.hour ++ ":" ++ padFix2 t.minute ++ ":" ++ padFix2 t.second ++
    "." ++ padFix3 t.millisecond

/-- Embedding of `_combine_into_timestamp`. -/
def combine_into_timestamp (naive_datetime : NaiveDateTime)
    (utc_offset_minutes : Int) : String :=
  isoformatMilliseconds naive_datetime ++ minutes_to_hours_string utc_offset_minutes

/-- Embedding of `_create_timestamp`; the current UTC wall-clock reading
is passed in explicitly. -/
def create_timestamp (now : NaiveDateTime) : String :=
  combine_into_timestamp now 0

/-- Embedding of Python `date.strftime` with format `%Y-%m-%d`. -/
def strftimeDate (t : NaiveDateTime) : String :=
  padFix4 t.year ++ "-" ++ padFix2 t.month ++ "-" ++ padFix2 t.day

/-- First-match lookup in an association list, the model of a Python
dict read (dict keys are unique, so first match is the match). -/
def lookupKV {K V : Type} [DecidableEq K] : List (K × V) → K → Option V
  | [], _ => none
  | p :: t, k => if k = p.1 then some p.2 else lookupKV t k

/-- Embedding of the `DEPARTURE_STATES` mapping from integer state codes
to symbolic state names; code 5 is absent. -/
def DEPARTURE_STATES : List (Int × String) :=
  [(0, "NOTEXPECTED"),
   (1, "NOTCALLED"),
   (2, "EXPECTED"),
   (3, "CANCELLED"),
   (4, "INHIBITED"),
   (6, "ATSTOP"),
   (7, "BOARDING"),
   (8, "BOARDINGCLOSED"),
   (9, "DEPARTED"),
   (10, "PASSED"),
   (11, "MISSED"),
   (12, "REPLACED"),
   (13, "ASSUMEDDEPARTED")]

/-- One row of the change-feed query result (`POLLING_QUERY`). -/
structure Row where
  DepartureId : String
  DatedVehicleJourneyId : String
  JourneyPatternPointGid : String
  TimetabledEarliestDateTime : NaiveDateTime
  ObservedDateTime : Option NaiveDateTime
  TargetDateTime : NaiveDateTime
  JourneyPatternSequenceNumber : Int
  State : Int
  LastModifiedUTCDateTime : NaiveDateTime
deriving DecidableEq

/-- Stop reference data resolved by the stop mapper. -/
structure StopInfo where
  JoreStopId : String
deriving DecidableEq

/-- Journey reference data resolved by the journey mapper. -/
structure JourneyInfo where
  JoreLineId : String
  JoreDirection : String
  LocalizedStartTime : NaiveDateTime
  OperatingDayDate : NaiveDateTime
  OffsetSeconds : Int
deriving DecidableEq

/-- UTC-offset reference data resolved by the UTC-offset mapper. -/
structure UtcOffsetInfo where
  UTCOffsetMinutes : Int
deriving DecidableEq

/-- A fully enriched row: the dict built by `Poller._get_matches`. -/
structure Matched where
  source : Row
  stop : StopInfo
  journey : JourneyInfo
  utc_offset : UtcOffsetInfo
deriving DecidableEq

/-- Embedding of `_is_train`, that is Python
`jore_line_id.startswith` with the literal `300`, phrased on the character lists of the
strings so that it evaluates by kernel reduction. -/
def is_train (jore_line_id : String) : Bool :=
  "300".data.isPrefixOf jore_line_id.data

/-- The dict built by `_extract_departure_id_and_event` and cached by the
event filter. -/
structure EventValue where
  State : Int
  JoreLineId : String
  StartUTCDateTime : NaiveDateTime
  LastModifiedUTCDateTime : NaiveDateTime
  TimetabledEarliestDateTime : NaiveDateTime
  LocalizedStartTime : NaiveDateTime
  JourneyPatternSequenceNumber : Int
deriving DecidableEq

/-- Embedding of `_extract_departure_id_and_event`. -/
def extract_departure_id_and_event (matched : Matched) : String × EventValue :=
  (matched.source.DepartureId,
   { State := matched.source.State,
     JoreLineId := matched.journey.JoreLineId,
     StartUTCDateTime :=
       subtractMinutes matched.journey.LocalizedStartTime
         matched.utc_offset.UTCOffsetMinutes,
     LastModifiedUTCDateTime := matched.source.LastModifiedUTCDateTime,
     TimetabledEarliestDateTime := matched.source.TimetabledEarliestDateTime,
     LocalizedStartTime := matched.journey.LocalizedStartTime,
     JourneyPatternSequenceNumber := matched.source.JourneyPatternSequenceNumber })

/-- The dict built by `_extract_departure_id_and_prediction` and cached
by the prediction filter. -/
structure PredictionValue where
  TimetabledEarliestDateTime : NaiveDateTime
  TargetDateTime : NaiveDateTime
  LastModifiedUTCDateTime : NaiveDateTime
  State : Int
  StartUTCDateTime : NaiveDateTime
  JoreLineId : String
deriving DecidableEq

/-- Embedding of `_extract_departure_id_and_prediction`: the prediction
is replaced by the observation when one is available. -/
def extract_departure_id_and_prediction (matched : Matched) :
    String × PredictionValue :=
  let source := matched.source
  let target :=
    match source.ObservedDateTime with
    | none => source.TargetDateTime
    | some observed => observed
  (source.DepartureId,
   { TimetabledEarliestDateTime := source.TimetabledEarliestDateTime,
     TargetDateTime := target,
     LastModifiedUTCDateTime := source.LastModifiedUTCDateTime,
     State := source.State,
     StartUTCDateTime :=
       subtractMinutes matched.journey.LocalizedStartTime
         matched.utc_offset.UTCOffsetMinutes,
     JoreLineId := matched.journey.JoreLineId })

/-- Embedding of `check_event_for_inclusion` from
`_create_event_checker`.  The function has no failure point, so it is
always `some` of the decision. -/
def check_event_for_inclusion (pre_journey_threshold_in_s : Int)
    (current : EventValue) (cached : Option EventValue) : Option Bool :=
  let is_kept := false
  let is_given_early :=
    total_seconds_gt current.StartUTCDateTime current.LastModifiedUTCDateTime
      pre_journey_threshold_in_s
  let is_first_stop := decide (current.JourneyPatternSequenceNumber = 1)
  let is_train := is_train current.JoreLineId
  let state := current.State
  let is_kept :=
    if !(is_first_stop && is_given_early) && !is_train then
      match cached with
      | none => true
      | some c => decide (¬ state = c.State)
    else is_kept
  some is_kept

/-- Embedding of `check_prediction_for_inclusion` from
`_create_prediction_checker`.  The indexing indexing `DEPARTURE_STATES` with the state
raises `KeyError` on a state code outside the mapping, embedded as
`none`. -/
def check_prediction_for_inclusion
    (pre_journey_threshold_in_s change_threshold_in_s : Int)
    (current : PredictionValue) (cached : Option PredictionValue) : Option Bool :=
  let is_kept := false
  let is_given_early :=
    total_seconds_gt current.StartUTCDateTime current.LastModifiedUTCDateTime
      pre_journey_threshold_in_s
  let is_predicted_early :=
    decide (current.TargetDateTime.toMillis <
      current.TimetabledEarliestDateTime.toMillis)
  let is_train := is_train current.JoreLineId
  match lookupKV DEPARTURE_STATES current.State with
  | none => none
  | some state_name =>
    let is_cancelled := decide (state_name = "CANCELLED")
    let is_kept :=
      if !is_train && !(is_given_early && is_predicted_early) && !is_cancelled then
        match cached with
        | none => true
        | some c =>
          total_seconds_abs_ge current.TargetDateTime c.TargetDateTime
            change_threshold_in_s
      else is_kept
    some is_kept

/-- Model of a `cachetools.LRUCache`: entries in most-recently-used-first
order together with the capacity bound. -/
structure LRU (K V : Type) where
  maxsize : Nat
  entries : List (K × V)
deriving DecidableEq

/-- Remove every entry with the given key. -/
def eraseKey {K V : Type} [DecidableEq K] (k : K) (l : List (K × V)) :
    List (K × V) :=
  l.filter (fun p => decide (¬ p.1 = k))

/-- Value stored under a key, if any. -/
def LRU.lookup {K V : Type} [DecidableEq K] (cache : LRU K V) (k : K) : Option V :=
  lookupKV cache.entries k

/-- Mark a key as most recently used, as the `__getitem__` of
`cachetools.LRUCache` does on a hit. -/
def LRU.touch {K V : Type} [DecidableEq K] (cache : LRU K V) (k : K) : LRU K V :=
  match lookupKV cache.entries k with
  | none => cache
  | some v => ⟨cache.maxsize, (k, v) :: eraseKey k cache.entries⟩

/-- Store a value under a key, as the dict-style store of `value` under `key` does: replace in
place on a hit, otherwise insert as most recent, evicting from the
least-recently-used end down to capacity. -/
def LRU.put {K V : Type} [DecidableEq K] (cache : LRU K V) (k : K) (v : V) :
    LRU K V :=
  match lookupKV cache.entries k with
  | some _ => ⟨cache.maxsize, (k, v) :: eraseKey k cache.entries⟩
  | none => ⟨cache.maxsize, ((k, v) :: cache.entries).take cache.maxsize⟩

/-- Embedding of `is_included_and_cached` from `_create_filter`: decide
on a record, caching its extracted value when it is kept.  `none`
propagates a checker failure. -/
def is_included_and_cached {M K V : Type} [DecidableEq K]
    (extract_cache_key_value : M → K × V)
    (is_included : V → Option V → Option Bool)
    (cache : LRU K V) (matched : M) : Option (Bool × LRU K V) :=
  let kv := extract_cache_key_value matched
  let cached := cache.lookup kv.1
  let cache := cache.touch kv.1
  match is_included kv.2 cached with
  | none => none
  | some is_kept => some (is_kept, if is_kept then cache.put kv.1 kv.2 else cache)

/-- Embedding of `filter_` from `_create_filter`: run the stateful
inclusion check left to right over the matches, returning the final
cache and the kept matches. -/
def filter_run {M K V : Type} [DecidableEq K]
    (extract_cache_key_value : M → K × V)
    (is_included : V → Option V → Option Bool) :
    LRU K V → List M → Option (LRU K V × List M)
  | cache, [] => some (cache, [])
  | cache, matched :: rest =>
    match is_included_and_cached extract_cache_key_value is_included cache matched with
    | none => none
    | some p =>
      match filter_run extract_cache_key_value is_included p.2 rest with
      | none => none
      | some q => some (q.1, if p.1 then matched :: q.2 else q.2)

/-- The snapshots of the three Jore mappers at one moment. -/
structure Mappers where
  stopEntries : List (String × StopInfo)
  journeyEntries : List (String × JourneyInfo)
  utcOffsetEntries : List (String × UtcOffsetInfo)
deriving DecidableEq

/-- Embedding of `Poller._get_matches`: join one row against the three
mappers, `none` when any lookup misses. -/
def get_matches (mappers : Mappers) (row : Row) : Option Matched :=
  let stop := lookupKV mappers.stopEntries row.JourneyPatternPointGid
  let journey := lookupKV mappers.journeyEntries row.DatedVehicleJourneyId
  let utc_offset := lookupKV mappers.utcOffsetEntries row.DatedVehicleJourneyId
  match stop, journey, utc_offset with
  | some s, some j, some u =>
    some { source := row, stop := s, journey := j, utc_offset := u }
  | _, _, _ => none

/-- Embedding of `Poller._get_all_matches`.  The loop body first joins
every row against the current mapper snapshots, then awaits
`_update_mappers`, which installs new snapshots and reports whether any
mapper changed; the environment is passed in as the list of
`(snapshot after refresh, changed)` outcomes of the successive refresh
rounds.  The loop retries while a round reports a change and otherwise
returns the joins of the snapshot it just used; it consumes one refresh
round per iteration unconditionally, and an environment that keeps
reporting a change forever (here: runs out of outcomes) never
terminates, embedded as `none`. -/
def get_all_matches (rows : List Row) :
    Mappers → List (Mappers × Bool) → Option (List Matched)
  | _, [] => none
  | mappers, u :: updates =>
    let matches_ := rows.map (get_matches mappers)
    if u.2 then get_all_matches rows u.1 updates
    else some (matches_.filterMap id)

/-- The mapper snapshot in force at the first refresh round that reports
no change, if the rounds ever report one. -/
def converged_state : Mappers → List (Mappers × Bool) → Option Mappers
  | _, [] => none
  | mappers, u :: updates =>
    if u.2 then converged_state u.1 updates else some mappers

/-- Python `max` over two values: keeps the current value on ties. -/
def maxDT (acc x : NaiveDateTime) : NaiveDateTime :=
  if x.toMillis > acc.toMillis then x else acc

/-- Watermark update of `Poller._poll`: an empty batch leaves the
watermark unchanged, a non-empty batch replaces it with
the Python `max` over the `LastModifiedUTCDateTime` of the rows. -/
def poll (rows : List Row) (modified_utc_dt : NaiveDateTime) : NaiveDateTime :=
  match rows with
  | [] => modified_utc_dt
  | r :: rest =>
    rest.foldl (fun acc row => maxDT acc row.LastModifiedUTCDateTime)
      r.LastModifiedUTCDateTime

/-- The successive watermarks of a run of poll cycles, starting from the
initial watermark. -/
def poll_scan (w : NaiveDateTime) : List (List Row) → List NaiveDateTime
  | [] => [w]
  | rows :: batches => w :: poll_scan (poll rows w) batches

/-- The change-feed query contract along a run: every row of each batch
has a last-modified time at or after the watermark the query was issued
with. -/
def goodRun (w : NaiveDateTime) : List (List Row) → Prop
  | [] => True
  | rows :: batches =>
    (∀ r ∈ rows, w.toMillis ≤ r.LastModifiedUTCDateTime.toMillis) ∧
      goodRun (poll rows w) batches

instance instDecidableGoodRun :
    (w : NaiveDateTime) → (bs : List (List Row)) → Decidable (goodRun w bs)
  | _, [] => isTrue trivial
  | w, rows :: batches =>
    haveI : Decidable (goodRun (poll rows w) batches) :=
      instDecidableGoodRun _ _
    decidable_of_iff
      ((∀ r ∈ rows, w.toMillis ≤ r.LastModifiedUTCDateTime.toMillis) ∧
        goodRun (poll rows w) batches)
      (by rw [goodRun])

/-- Append a value to the entry of a key, adding the entry at the end if
the key is new: one step of the `defaultdict(list)` loop in
`_create_arranger`. -/
def insertByKey {K V : Type} [DecidableEq K] (k : K) (v : V) :
    List (K × List V) → List (K × List V)
  | [] => [(k, [v])]
  | p :: t => if p.1 = k then (p.1, p.2 ++ [v]) :: t else p :: insertByKey k v t

/-- Embedding of `arrange_by_key` from `_create_arranger`: group the
arranged values by key, keys in first-occurrence order as a Python dict
iterates them. -/
def arrange_by_key {M K V : Type} [DecidableEq K] (arrange : M → K × V)
    (matches_ : List M) : List (K × List V) :=
  matches_.foldl
    (fun by_key matched => insertByKey (arrange matched).1 (arrange matched).2 by_key)
    []

/-- One entry of a per-stop prediction payload. -/
structure PredictionEntry where
  joreStopId : String
  joreLineId : String
  joreLineDirection : String
  journeyStartTime : String
  stopOrderInJourney : Int
  operatingDay : String
  journeyStartInSecondsIntoOperatingDay : Int
  scheduledDepartureTime : String
  predictedDepartureTime : String
deriving DecidableEq

/-- One entry of a per-stop event payload. -/
structure EventEntry where
  joreStopId : String
  joreLineId : String
  joreLineDirection : String
  journeyStartTime : String
  stopOrderInJourney : Int
  operatingDay : String
  journeyStartInSecondsIntoOperatingDay : Int
  scheduledDepartureTime : String
  event : String
deriving DecidableEq

/-- Embedding of `_arrange_prediction`.  Note that the predicted time is
read from the `TargetDateTime` of the source row of the match. -/
def arrange_prediction (matched : Matched) : String × PredictionEntry :=
  let source := matched.source
  let stop := matched.stop.JoreStopId
  let journey := matched.journey
  let utc_offset := matched.utc_offset.UTCOffsetMinutes
  let start_naive := journey.LocalizedStartTime
  let scheduled_naive := source.TimetabledEarliestDateTime
  let predicted_naive := source.TargetDateTime
  let operating_day := strftimeDate journey.OperatingDayDate
  let seconds_since := journey.OffsetSeconds
  let start_time := combine_into_timestamp start_naive utc_offset
  let scheduled_time := combine_into_timestamp scheduled_naive utc_offset
  let predicted_time := combine_into_timestamp predicted_naive utc_offset
  (stop,
   { joreStopId := stop,
     joreLineId := journey.JoreLineId,
     joreLineDirection := journey.JoreDirection,
     journeyStartTime := start_time,
     stopOrderInJourney := source.JourneyPatternSequenceNumber,
     operatingDay := operating_day,
     journeyStartInSecondsIntoOperatingDay := seconds_since,
     scheduledDepartureTime := scheduled_time,
     predictedDepartureTime := predicted_time })

/-- Embedding of `_arrange_event`.  The indexing
indexing `DEPARTURE_STATES` with the source `State` raises `KeyError` on a state code
outside the mapping, embedded as `none`. -/
def arrange_event (matched : Matched) : Option (String × EventEntry) :=
  let source := matched.source
  let stop := matched.stop.JoreStopId
  let journey := matched.journey
  let utc_offset := matched.utc_offset.UTCOffsetMinutes
  match lookupKV DEPARTURE_STATES source.State with
  | none => none
  | some state =>
    let start_naive := journey.LocalizedStartTime
    let scheduled_naive := source.TimetabledEarliestDateTime
    let operating_day := strftimeDate journey.OperatingDayDate
    let seconds_since := journey.OffsetSeconds
    let start_time := combine_into_timestamp start_naive utc_offset
    let scheduled_time := combine_into_timestamp scheduled_naive utc_offset
    some (stop,
     { joreStopId := stop,
       joreLineId := journey.JoreLineId,
       joreLineDirection := journey.JoreDirection,
       journeyStartTime := start_time,
       stopOrderInJourney := source.JourneyPatternSequenceNumber,
       operatingDay := operating_day,
       journeyStartInSecondsIntoOperatingDay := seconds_since,
       scheduledDepartureTime := scheduled_time,
       event := state })

/-- A per-stop prediction message; `json.dumps` of the payload is
abstracted into the payload structure itself. -/
structure PredictionMessage where
  messageTimestamp : String
  predictions : List PredictionEntry
deriving DecidableEq

/-- A per-stop event message. -/
structure EventMessage where
  messageTimestamp : String
  events : List EventEntry
deriving DecidableEq

/-- Embedding of `serialize` from `_create_prediction_serializer`: one
`(topic suffix, payload)` pair per stop appearing in the matches. -/
def serialize_predictions (mqtt_topic_mid : String) (matches_ : List Matched)
    (message_timestamp : String) : List (String × PredictionMessage) :=
  (arrange_by_key arrange_prediction matches_).map
    (fun p =>
      (mqtt_topic_mid ++ p.1,
       { messageTimestamp := message_timestamp, predictions := p.2 }))

/-- The `arrange_by_key` loop of `_create_arranger` for an arrangement
that can raise, as `_arrange_event` can on an unmapped state code: the
same left-to-right `defaultdict(list)` loop, with `none` propagating the
raised `KeyError` of the first failing record.  `arrange_by_key` is its
specialization to the prediction arrangement, which cannot raise. -/
def arrange_by_key_opt {M K V : Type} [DecidableEq K]
    (arrange : M → Option (K × V)) :
    List M → List (K × List V) → Option (List (K × List V))
  | [], by_key => some by_key
  | matched :: rest, by_key =>
    match arrange matched with
    | none => none
    | some kv => arrange_by_key_opt arrange rest (insertByKey kv.1 kv.2 by_key)

/-- Embedding of `serialize` from `_create_event_serializer`: one
`(topic suffix, payload)` pair per stop appearing in the matches, with
`none` propagating a `KeyError` raised while arranging a record whose
state code is outside `DEPARTURE_STATES`. -/
def serialize_events (mqtt_topic_mid : String) (matches_ : List Matched)
    (message_timestamp : String) : Option (List (String × EventMessage)) :=
  match arrange_by_key_opt arrange_event matches_ [] with
  | none => none
  | some events_by_stop =>
    some (events_by_stop.map
      (fun p =>
        (mqtt_topic_mid ++ p.1,
         { messageTimestamp := message_timestamp, events := p.2 })))


/-- Specification-side restatement of the event filter decision,
following the order of the spec: reject a first-stop record given
early, reject a train line, otherwise accept a new departure id or a
changed symbolic state. -/
def event_decision_of_spec (pre_journey_threshold_in_s : Int)
    (current : EventValue) (cached : Option EventValue) : Bool :=
  if decide (current.JourneyPatternSequenceNumber = 1) &&
      total_seconds_gt current.StartUTCDateTime current.LastModifiedUTCDateTime
        pre_journey_threshold_in_s then false
  else if "300".data.isPrefixOf current.JoreLineId.data then false
  else
    match cached with
    | none => true
    | some c => decide (¬ current.State = c.State)

/-- Specification-side restatement of the prediction filter decision,
following the order of the spec: reject a train line, reject a record
both given early and predicted early, reject a cancelled departure,
otherwise accept a new departure id or a target time moved by at least
the change threshold. -/
def prediction_decision_of_spec
    (pre_journey_threshold_in_s change_threshold_in_s : Int)
    (current : PredictionValue) (cached : Option PredictionValue) : Bool :=
  if "300".data.isPrefixOf current.JoreLineId.data then false
  else if total_seconds_gt current.StartUTCDateTime current.LastModifiedUTCDateTime
        pre_journey_threshold_in_s &&
      decide (current.TargetDateTime.toMillis <
        current.TimetabledEarliestDateTime.toMillis) then false
  else if decide (lookupKV DEPARTURE_STATES current.State = some "CANCELLED") then false
  else
    match cached with
    | none => true
    | some c =>
      total_seconds_abs_ge current.TargetDateTime c.TargetDateTime
        change_threshold_in_s

/-- Concrete stop fixture. -/
def stopA : StopInfo := ⟨"1130101"⟩

/-- Second concrete stop fixture. -/
def stopB : StopInfo := ⟨"1040101"⟩

/-- Concrete journey fixture: bus line 1018, local start 08:00 on
2023-05-01. -/
def journeyA : JourneyInfo :=
  { JoreLineId := "1018",
    JoreDirection := "1",
    LocalizedStartTime := ⟨2023, 5, 1, 8, 0, 0, 0⟩,
    OperatingDayDate := ⟨2023, 5, 1, 0, 0, 0, 0⟩,
    OffsetSeconds := 28800 }

/-- Concrete UTC-offset fixture: local time is UTC+03:00. -/
def utcA : UtcOffsetInfo := ⟨180⟩

/-- Concrete base row fixture: second stop of the journey, state
EXPECTED, modified one minute after the 05:00 UTC journey start. -/
def baseRow : Row :=
  { DepartureId := "1",
    DatedVehicleJourneyId := "10",
    JourneyPatternPointGid := "20",
    TimetabledEarliestDateTime := ⟨2023, 5, 1, 8, 10, 0, 0⟩,
    ObservedDateTime := none,
    TargetDateTime := ⟨2023, 5, 1, 8, 10, 0, 0⟩,
    JourneyPatternSequenceNumber := 2,
    State := 2,
    LastModifiedUTCDateTime := ⟨2023, 5, 1, 5, 1, 0, 0⟩ }

/-- Enriched record with an observation five seconds before the target. -/
def c3Matched : Matched :=
  ⟨{ baseRow with ObservedDateTime := some ⟨2023, 5, 1, 8, 9, 55, 0⟩ },
    stopA, journeyA, utcA⟩

/-- Enriched record whose state code 5 is outside `DEPARTURE_STATES`. -/
def state5Matched : Matched :=
  ⟨{ baseRow with State := 5 }, stopA, journeyA, utcA⟩

/-- C8: the rendered timestamp is the ISO millisecond form of the naive
local time followed by a signed zero-padded `HH:MM` suffix whose sign is
`-` exactly for negative offsets and whose parts are the quotient and
remainder of the absolute offset by 60; the given concrete instance
renders as claimed, and the batch timestamp, rendered with offset 0,
ends in `+00:00`. -/
theorem claim_C8 :
    (∀ (t : NaiveDateTime) (m : Int),
      combine_into_timestamp t m =
        isoformatMilliseconds t ++
          ((if m < 0 then "-" else "+") ++ padFix2 (Int.ediv |m| 60) ++ ":" ++
            padFix2 (Int.emod |m| 60))) ∧
    combine_into_timestamp ⟨2023, 5, 1, 8, 15, 30, 250⟩ (-150) =
      "2023-05-01T08:15:30.250-02:30" ∧
    (∀ t : NaiveDateTime, create_timestamp t = isoformatMilliseconds t ++ "+00:00") := by
  refine ⟨fun t m => rfl, by decide, fun t => ?_⟩
  show combine_into_timestamp t 0 = _
  rw [combine_into_timestamp, show minutes_to_hours_string 0 = "+00:00" from by decide]

/-- C10: the prediction filter decision is partial on the state code:
on the record with unmapped state code 5 it fails the state lookup
(`none`, a `KeyError` in the source), while the event filter decision is
total, returns an ordinary decision for the same record, compares raw
integer codes (two records with unmapped code 5 compare equal without a
lookup), and the unmapped code only fails later in event serialization. -/
theorem claim_C10 :
    check_prediction_for_inclusion 300 30
      (extract_departure_id_and_prediction state5Matched).2 none = none ∧
    (∀ (pre : Int) (current : EventValue) (cached : Option EventValue),
      (check_event_for_inclusion pre current cached).isSome = true) ∧
    check_event_for_inclusion 300
      (extract_departure_id_and_event state5Matched).2 none = some true ∧
    check_event_for_inclusion 300
      (extract_departure_id_and_event state5Matched).2
      (some (extract_departure_id_and_event state5Matched).2) = some false ∧
    arrange_event state5Matched = none := by
  refine ⟨by decide, fun pre current cached => rfl, by decide, by decide, by decide⟩

/-- C3 counterexample: on a concrete record with observed time five
seconds before the target time, the serialized `predictedDepartureTime`
renders the original target time, not the observed time, so the observed
time does not supersede the target time in the emitted message. -/
theorem claim_C3_counterexample :
    c3Matched.source.ObservedDateTime = some ⟨2023, 5, 1, 8, 9, 55, 0⟩ ∧
    (extract_departure_id_and_prediction c3Matched).2.TargetDateTime =
      ⟨2023, 5, 1, 8, 9, 55, 0⟩ ∧
    combine_into_timestamp ⟨2023, 5, 1, 8, 9, 55, 0⟩ 180 =
      "2023-05-01T08:09:55.000+03:00" ∧
    (arrange_prediction c3Matched).2.predictedDepartureTime =
      "2023-05-01T08:10:00.000+03:00" ∧
    "2023-05-01T08:10:00.000+03:00" ≠ "2023-05-01T08:09:55.000+03:00" := by
  decide

/-- C3 (amended): for every record carrying an observed time, the
observed time supersedes the target time in the extracted dict, hence in
the early/late classification and in the value cached on acceptance,
both of which read that dict; but the emitted `predictedDepartureTime`
renders the original target time of the source row, unaffected by the
observation. -/
theorem claim_C3 (matched : Matched) (o : NaiveDateTime)
    (h : matched.source.ObservedDateTime = some o) :
    (extract_departure_id_and_prediction matched).2.TargetDateTime = o ∧
    (arrange_prediction matched).2.predictedDepartureTime =
      combine_into_timestamp matched.source.TargetDateTime
        matched.utc_offset.UTCOffsetMinutes := by
  constructor
  · simp [extract_departure_id_and_prediction, h]
  · rfl

/-- Witness for C3 at the concrete record of the counterexample. -/
theorem claim_C3_witness :
    c3Matched.source.ObservedDateTime = some ⟨2023, 5, 1, 8, 9, 55, 0⟩ ∧
    ((extract_departure_id_and_prediction c3Matched).2.TargetDateTime =
        ⟨2023, 5, 1, 8, 9, 55, 0⟩ ∧
      (arrange_prediction c3Matched).2.predictedDepartureTime =
        combine_into_timestamp c3Matched.source.TargetDateTime
          c3Matched.utc_offset.UTCOffsetMinutes) :=
  ⟨by decide, claim_C3 c3Matched ⟨2023, 5, 1, 8, 9, 55, 0⟩ (by decide)⟩

/-- Enriched prediction record with target time T = 08:10:00. -/
def predMatched1 : Matched := ⟨baseRow, stopA, journeyA, utcA⟩

/-- Enriched prediction record with target time T plus 4 seconds. -/
def predMatched2 : Matched :=
  ⟨{ baseRow with TargetDateTime := ⟨2023, 5, 1, 8, 10, 4, 0⟩ }, stopA, journeyA, utcA⟩

/-- Enriched prediction record with target time T plus 40 seconds. -/
def predMatched3 : Matched :=
  ⟨{ baseRow with TargetDateTime := ⟨2023, 5, 1, 8, 10, 40, 0⟩ }, stopA, journeyA, utcA⟩

/-- Enriched event record in state EXPECTED. -/
def eventMatched1 : Matched := ⟨baseRow, stopA, journeyA, utcA⟩

/-- Later enriched event record, again in state EXPECTED. -/
def eventMatched2 : Matched :=
  ⟨{ baseRow with LastModifiedUTCDateTime := ⟨2023, 5, 1, 5, 2, 0, 0⟩ },
    stopA, journeyA, utcA⟩

/-- Still later enriched event record, in state ATSTOP. -/
def eventMatched3 : Matched :=
  ⟨{ baseRow with State := 6, LastModifiedUTCDateTime := ⟨2023, 5, 1, 5, 3, 0, 0⟩ },
    stopA, journeyA, utcA⟩

/-- A guard of the shape of the event checker equals the corresponding
chain of early rejections. -/
theorem guard_chain_two (a b c x : Bool) :
    (if !(a && b) && !c then x else false) =
      (if a && b then false else if c then false else x) := by
  cases a <;> cases b <;> cases c <;> rfl

/-- A guard of the shape of the prediction checker equals the
corresponding chain of early rejections. -/
theorem guard_chain_three (a bc d x : Bool) :
    (if !a && !bc && !d then x else false) =
      (if a then false else if bc then false else if d then false else x) := by
  cases a <;> cases bc <;> cases d <;> rfl

/-- C5: the event filter decision equals the spec decision procedure:
reject a first-stop record given early, reject a train line, otherwise
accept exactly when there is no cache entry or the symbolic state
differs from the cached one; and on the state sequence EXPECTED,
EXPECTED, ATSTOP for one departure id exactly the first and the third
records are accepted. -/
theorem claim_C5 :
    (∀ (pre : Int) (current : EventValue) (cached : Option EventValue),
      check_event_for_inclusion pre current cached =
        some (event_decision_of_spec pre current cached)) ∧
    (filter_run extract_departure_id_and_event (check_event_for_inclusion 300)
        ⟨100, []⟩ [eventMatched1, eventMatched2, eventMatched3]).map
        (fun p => p.2) =
      some [eventMatched1, eventMatched3] := by
  constructor
  · intro pre current cached
    simp only [check_event_for_inclusion, event_decision_of_spec, is_train]
    exact congrArg some (guard_chain_two _ _ _ _)
  · decide

/-- C4: given a state code inside `DEPARTURE_STATES`, the prediction
filter decision equals the spec decision procedure: reject a train line,
reject a record both given early and predicted early, reject a cancelled
departure, otherwise accept exactly when there is no cache entry or the
effective target time moved by at least the change threshold; and on
target times T, T plus 4 s, T plus 40 s with change threshold 30 s,
exactly the first and the third records are accepted. -/
theorem claim_C4 :
    (∀ (pre ch : Int) (current : PredictionValue)
        (cached : Option PredictionValue) (name : String),
      lookupKV DEPARTURE_STATES current.State = some name →
      check_prediction_for_inclusion pre ch current cached =
        some (prediction_decision_of_spec pre ch current cached)) ∧
    (filter_run extract_departure_id_and_prediction
        (check_prediction_for_inclusion 300 30) ⟨100, []⟩
        [predMatched1, predMatched2, predMatched3]).map (fun p => p.2) =
      some [predMatched1, predMatched3] := by
  constructor
  · intro pre ch current cached name h
    simp only [check_prediction_for_inclusion, prediction_decision_of_spec,
      is_train, h, Option.some.injEq]
    exact guard_chain_three _ _ _ _
  · decide

/-- Witness for C4 at a concrete mapped state code. -/
theorem claim_C4_witness :
    lookupKV DEPARTURE_STATES
      (extract_departure_id_and_prediction predMatched1).2.State =
      some "EXPECTED" ∧
    check_prediction_for_inclusion 300 30
      (extract_departure_id_and_prediction predMatched1).2 none =
      some (prediction_decision_of_spec 300 30
        (extract_departure_id_and_prediction predMatched1).2 none) :=
  ⟨by decide,
   claim_C4.1 300 30 (extract_departure_id_and_prediction predMatched1).2 none
     "EXPECTED" (by decide)⟩

/-- The fold computing the batch maximum never goes below its starting
value. -/
theorem foldl_maxDT_ge_init (l : List Row) (init : NaiveDateTime) :
    init.toMillis ≤
      (l.foldl (fun acc row => maxDT acc row.LastModifiedUTCDateTime) init).toMillis := by
  induction l generalizing init with
  | nil => exact le_refl _
  | cons r t ih =>
    refine le_trans ?_ (ih (maxDT init r.LastModifiedUTCDateTime))
    unfold maxDT
    split_ifs with h
    · exact le_of_lt h
    · exact le_refl _

/-- The fold computing the batch maximum dominates every element it has
seen. -/
theorem foldl_maxDT_ge_mem (l : List Row) (init : NaiveDateTime) (r : Row)
    (hr : r ∈ l) :
    r.LastModifiedUTCDateTime.toMillis ≤
      (l.foldl (fun acc row => maxDT acc row.LastModifiedUTCDateTime) init).toMillis := by
  induction l generalizing init with
  | nil => cases hr
  | cons a t ih =>
    rcases List.mem_cons.mp hr with h | h
    · subst h
      refine le_trans ?_ (foldl_maxDT_ge_init t (maxDT init r.LastModifiedUTCDateTime))
      unfold maxDT
      split_ifs with hgt
      · exact le_refl _
      · exact le_of_not_lt hgt
    · exact ih _ h

/-- The fold computing the batch maximum returns its starting value or
one of the elements. -/
theorem foldl_maxDT_mem (l : List Row) (init : NaiveDateTime) :
    (l.foldl (fun acc row => maxDT acc row.LastModifiedUTCDateTime) init) = init ∨
      ∃ r ∈ l,
        (l.foldl (fun acc row => maxDT acc row.LastModifiedUTCDateTime) init) =
          r.LastModifiedUTCDateTime := by
  induction l generalizing init with
  | nil => exact Or.inl rfl
  | cons a t ih =>
    rcases ih (maxDT init a.LastModifiedUTCDateTime) with h | ⟨r, hr, h⟩
    · rw [List.foldl_cons, h]
      unfold maxDT
      split_ifs
      · exact Or.inr ⟨a, List.mem_cons_self a t, rfl⟩
      · exact Or.inl rfl
    · exact Or.inr ⟨r, List.mem_cons_of_mem a hr, by rw [List.foldl_cons, h]⟩

/-- A non-empty batch moves the watermark to an element of the batch
that dominates every element of the batch. -/
theorem poll_is_max (w : NaiveDateTime) (rows : List Row) (hne : rows ≠ []) :
    ∃ r ∈ rows, poll rows w = r.LastModifiedUTCDateTime ∧
      ∀ r' ∈ rows,
        r'.LastModifiedUTCDateTime.toMillis ≤ (poll rows w).toMillis := by
  match rows with
  | [] => exact absurd rfl hne
  | a :: t =>
    have hub : ∀ r' ∈ a :: t,
        r'.LastModifiedUTCDateTime.toMillis ≤ (poll (a :: t) w).toMillis := by
      intro r' hr'
      rcases List.mem_cons.mp hr' with h | h
      · subst h
        exact foldl_maxDT_ge_init t r'.LastModifiedUTCDateTime
      · exact foldl_maxDT_ge_mem t _ r' h
    rcases foldl_maxDT_mem t a.LastModifiedUTCDateTime with h | ⟨r, hr, h⟩
    · exact ⟨a, List.mem_cons_self a t, h, hub⟩
    · exact ⟨r, List.mem_cons_of_mem a hr, h, hub⟩

/-- Under the query contract, a poll cycle never lowers the watermark. -/
theorem poll_ge_watermark (w : NaiveDateTime) (rows : List Row)
    (hall : ∀ r ∈ rows, w.toMillis ≤ r.LastModifiedUTCDateTime.toMillis) :
    w.toMillis ≤ (poll rows w).toMillis := by
  match rows with
  | [] => exact le_refl _
  | a :: t =>
    refine le_trans (hall a (List.mem_cons_self a t)) ?_
    exact foldl_maxDT_ge_init t a.LastModifiedUTCDateTime

/-- The watermark trace starts with the initial watermark. -/
theorem poll_scan_head (bs : List (List Row)) (w : NaiveDateTime) :
    (poll_scan w bs).head? = some w := by
  cases bs <;> rfl

/-- Along a run satisfying the query contract, the watermark trace is a
non-decreasing chain. -/
theorem poll_scan_chain : ∀ (bs : List (List Row)) (w : NaiveDateTime),
    goodRun w bs →
    List.Chain' (fun a b : NaiveDateTime => a.toMillis ≤ b.toMillis) (poll_scan w bs)
  | [], w, _ => by simp [poll_scan]
  | b :: bs, w, h => by
    rw [poll_scan, List.chain'_cons']
    refine ⟨?_, poll_scan_chain bs (poll b w) h.2⟩
    intro y hy
    rw [poll_scan_head bs (poll b w)] at hy
    cases hy
    exact poll_ge_watermark w b h.1

/-- C1: assuming every queried row has last-modified at or after the
watermark passed to the query, the watermark is monotonically
non-decreasing along any run of poll cycles; an empty batch leaves it
unchanged, and a non-empty batch sets it to the maximum last-modified
time of the raw batch, which then is at or above the previous
watermark. -/
theorem claim_C1 (w : NaiveDateTime) (batches : List (List Row))
    (h : goodRun w batches) :
    List.Chain' (fun a b : NaiveDateTime => a.toMillis ≤ b.toMillis)
      (poll_scan w batches) ∧
    (∀ w' : NaiveDateTime, poll [] w' = w') ∧
    (∀ (w' : NaiveDateTime) (rows : List Row), rows ≠ [] →
      (∃ r ∈ rows, poll rows w' = r.LastModifiedUTCDateTime ∧
        ∀ r' ∈ rows,
          r'.LastModifiedUTCDateTime.toMillis ≤ (poll rows w').toMillis) ∧
      ((∀ r ∈ rows, w'.toMillis ≤ r.LastModifiedUTCDateTime.toMillis) →
        w'.toMillis ≤ (poll rows w').toMillis)) := by
  refine ⟨poll_scan_chain batches w h, fun w' => rfl, fun w' rows hne => ?_⟩
  exact ⟨poll_is_max w' rows hne, fun hall => poll_ge_watermark w' rows hall⟩

/-- Witness for C1 on a concrete two-cycle run. -/
theorem claim_C1_witness :
    goodRun ⟨2023, 5, 1, 0, 0, 0, 0⟩ [[baseRow], []] ∧
    List.Chain' (fun a b : NaiveDateTime => a.toMillis ≤ b.toMillis)
      (poll_scan ⟨2023, 5, 1, 0, 0, 0, 0⟩ [[baseRow], []]) :=
  ⟨by decide, (claim_C1 ⟨2023, 5, 1, 0, 0, 0, 0⟩ [[baseRow], []] (by decide)).1⟩

/-- Filtering the `none` joins out of the mapped batch is the filterMap
of the join. -/
theorem filterMap_id_map {α β : Type} (f : α → Option β) (l : List α) :
    (l.map f).filterMap id = l.filterMap f := by
  induction l with
  | nil => rfl
  | cons a t ih => cases h : f a <;> simp [List.filterMap_cons, h, ih]

/-- When the refresh rounds eventually report no change, the Matcher
returns exactly the rows fully joinable under the snapshot in force at
that final round. -/
theorem get_all_matches_converged :
    ∀ (updates : List (Mappers × Bool)) (mp sF : Mappers) (rows : List Row),
      converged_state mp updates = some sF →
      get_all_matches rows mp updates = some (rows.filterMap (get_matches sF))
  | [], mp, sF, rows, h => by simp [converged_state] at h
  | u :: updates, mp, sF, rows, h => by
    cases hu : u.2 with
    | true =>
      rw [converged_state, if_pos hu] at h
      rw [get_all_matches, if_pos hu]
      exact get_all_matches_converged updates u.1 sF rows h
    | false =>
      rw [converged_state, if_neg (by simp [hu])] at h
      injection h with h'
      subst h'
      simp [get_all_matches, hu, filterMap_id_map]

/-- The mapper snapshots that resolve every key of `baseRow`. -/
def mappersA : Mappers := ⟨[("20", stopA)], [("10", journeyA)], [("10", utcA)]⟩

/-- Empty mapper snapshots resolving nothing. -/
def mappersEmpty : Mappers := ⟨[], [], []⟩

/-- C2 counterexample: every key of the single-row batch resolves under
the initial snapshots, yet the Matcher does not terminate without
consuming a refresh round (with no refresh outcomes available it never
returns), and when the refresh rounds report a change to emptied
snapshots and then no change, it returns the empty enrichment instead of
the fully joined batch: the refresh of the resolvers is triggered
unconditionally on every round, not only when at least one row has an
unresolved key. -/
theorem claim_C2_counterexample :
    (∀ r ∈ [baseRow], (get_matches mappersA r).isSome = true) ∧
    get_all_matches [baseRow] mappersA [] = none ∧
    get_all_matches [baseRow] mappersA
      [(mappersEmpty, true), (mappersEmpty, false)] = some [] := by
  decide

/-- C2 (amended): the Matcher joins every row of the batch and then
refreshes all three resolvers unconditionally on every round, regardless
of whether any row is unresolved; it re-attempts the join over the
entire original batch whenever a refresh round reports a change,
terminates exactly when a refresh round reports no change from any
resolver, and then returns exactly the subset of rows whose three keys
all resolve under the snapshots in force at that round. -/
theorem claim_C2 (rows : List Row) (mp : Mappers)
    (updates : List (Mappers × Bool)) (sF : Mappers)
    (h : converged_state mp updates = some sF) :
    get_all_matches rows mp updates = some (rows.filterMap (get_matches sF)) :=
  get_all_matches_converged updates mp sF rows h

/-- Witness for C2 on a one-round converging run. -/
theorem claim_C2_witness :
    converged_state mappersA [(mappersA, false)] = some mappersA ∧
    get_all_matches [baseRow] mappersA [(mappersA, false)] =
      some ([baseRow].filterMap (get_matches mappersA)) :=
  ⟨by decide,
   claim_C2 [baseRow] mappersA [(mappersA, false)] mappersA (by decide)⟩

/-- Lookup after erasing a key: gone for that key, unchanged otherwise. -/
theorem lookupKV_eraseKey {K V : Type} [DecidableEq K] (k k' : K)
    (l : List (K × V)) :
    lookupKV (eraseKey k l) k' = if k' = k then none else lookupKV l k' := by
  induction l with
  | nil =>
    simp only [eraseKey, List.filter_nil, lookupKV]
    split <;> rfl
  | cons p t ih =>
    by_cases hp : p.1 = k
    · have : eraseKey k (p :: t) = eraseKey k t := by
        simp [eraseKey, List.filter_cons, hp]
      rw [this, ih]
      by_cases hk : k' = k
      · rw [if_pos hk, if_pos hk]
      · rw [if_neg hk, if_neg hk, lookupKV, if_neg (by rw [hp]; exact hk)]
    · have : eraseKey k (p :: t) = p :: eraseKey k t := by
        simp [eraseKey, List.filter_cons, hp]
      rw [this, lookupKV, lookupKV]
      by_cases hq : k' = p.1
      · rw [if_pos hq, if_pos hq, if_neg (by rw [hq]; exact hp)]
      · rw [if_neg hq, if_neg hq, ih]

/-- A hit in a prefix of an association list is a hit in the list. -/
theorem lookupKV_take {K V : Type} [DecidableEq K] (l : List (K × V)) (n : Nat)
    (k : K) (v : V) (h : lookupKV (l.take n) k = some v) :
    lookupKV l k = some v := by
  induction l generalizing n with
  | nil => simp [lookupKV] at h
  | cons p t ih =>
    cases n with
    | zero => simp [lookupKV] at h
    | succ m =>
      rw [List.take_succ_cons] at h
      rw [lookupKV] at h ⊢
      by_cases hk : k = p.1
      · rwa [if_pos hk] at h ⊢
      · rw [if_neg hk] at h ⊢
        exact ih m h

/-- Touching a key does not change the key-value mapping of the cache. -/
theorem LRU.lookup_touch {K V : Type} [DecidableEq K] (c : LRU K V) (k k' : K) :
    (c.touch k).lookup k' = c.lookup k' := by
  unfold LRU.touch LRU.lookup
  cases h : lookupKV c.entries k with
  | none => rfl
  | some v =>
    show lookupKV ((k, v) :: eraseKey k c.entries) k' = lookupKV c.entries k'
    rw [lookupKV]
    by_cases hk : k' = k
    · rw [if_pos hk, hk, h]
    · rw [if_neg hk, lookupKV_eraseKey, if_neg hk]

/-- A hit after storing a value is the stored value for that key and an
existing hit for any other key. -/
theorem LRU.lookup_put {K V : Type} [DecidableEq K] (c : LRU K V) (k k' : K)
    (v w : V) (h : (c.put k v).lookup k' = some w) :
    (k' = k ∧ w = v) ∨ (¬ k' = k ∧ c.lookup k' = some w) := by
  unfold LRU.put LRU.lookup at h
  cases hc : lookupKV c.entries k with
  | some v0 =>
    rw [hc] at h
    rw [lookupKV] at h
    by_cases hk : k' = k
    · rw [if_pos hk] at h
      exact Or.inl ⟨hk, (Option.some.inj h).symm⟩
    · rw [if_neg hk, lookupKV_eraseKey, if_neg hk] at h
      exact Or.inr ⟨hk, h⟩
  | none =>
    rw [hc] at h
    have h' := lookupKV_take _ _ _ _ h
    rw [lookupKV] at h'
    by_cases hk : k' = k
    · rw [if_pos hk] at h'
      exact Or.inl ⟨hk, (Option.some.inj h').symm⟩
    · rw [if_neg hk] at h'
      exact Or.inr ⟨hk, h'⟩

/-- The value paired with the last occurrence of a key in a trace of
accepted snapshots. -/
def lastValueFor {K V : Type} [DecidableEq K] (k : K) : List (K × V) → Option V
  | [] => none
  | p :: t =>
    match lastValueFor k t with
    | some v => some v
    | none => if p.1 = k then some p.2 else none

/-- Cache invariant of the generic filter: after a run, a cache hit for
a key is the snapshot of the last accepted record for that key, unless
no record for that key was accepted and the entry was present at the
start. -/
theorem filter_run_cache_last {M K V : Type} [DecidableEq K]
    (extract_cache_key_value : M → K × V)
    (is_included : V → Option V → Option Bool) :
    ∀ (ms : List M) (c c' : LRU K V) (kept : List M),
      filter_run extract_cache_key_value is_included c ms = some (c', kept) →
      ∀ (k : K) (v : V), c'.lookup k = some v →
        lastValueFor k (kept.map extract_cache_key_value) = some v ∨
          (lastValueFor k (kept.map extract_cache_key_value) = none ∧
            c.lookup k = some v) := by
  intro ms
  induction ms with
  | nil =>
    intro c c' kept h k v hv
    rw [filter_run] at h
    injection h with h'
    injection h' with h1 h2
    subst h1
    subst h2
    exact Or.inr ⟨rfl, hv⟩
  | cons m ms ih =>
    intro c c' kept h k v hv
    rw [filter_run] at h
    cases hB : is_included (extract_cache_key_value m).2
        (c.lookup (extract_cache_key_value m).1) with
    | none =>
      rw [show is_included_and_cached extract_cache_key_value is_included c m = none
          from by simp [is_included_and_cached, hB]] at h
      cases h
    | some b =>
      rw [show is_included_and_cached extract_cache_key_value is_included c m =
          some (b, if b then
              ((c.touch (extract_cache_key_value m).1).put
                (extract_cache_key_value m).1 (extract_cache_key_value m).2)
            else c.touch (extract_cache_key_value m).1)
          from by simp [is_included_and_cached, hB]] at h
      cases b with
      | true =>
        simp only [if_true] at h
        cases hrec : filter_run extract_cache_key_value is_included
            ((c.touch (extract_cache_key_value m).1).put
              (extract_cache_key_value m).1 (extract_cache_key_value m).2) ms with
        | none => rw [hrec] at h; cases h
        | some q =>
          rw [hrec] at h
          injection h with h'
          injection h' with h1 h2
          subst h1
          subst h2
          rcases ih _ _ _ hrec k v hv with hlast | ⟨hnone, hput⟩
          · left
            rw [List.map_cons, lastValueFor, hlast]
          · rcases LRU.lookup_put _ _ _ _ _ hput with ⟨hk, hw⟩ | ⟨hk, htouch⟩
            · left
              simp only [List.map_cons, lastValueFor, hnone]
              rw [if_pos hk.symm, hw]
            · right
              rw [LRU.lookup_touch] at htouch
              refine ⟨?_, htouch⟩
              simp only [List.map_cons, lastValueFor, hnone]
              rw [if_neg (fun heq => hk heq.symm)]
      | false =>
        simp only [if_neg Bool.false_ne_true] at h
        cases hrec : filter_run extract_cache_key_value is_included
            (c.touch (extract_cache_key_value m).1) ms with
        | none => rw [hrec] at h; cases h
        | some q =>
          rw [hrec] at h
          injection h with h'
          injection h' with h1 h2
          subst h1
          subst h2
          rcases ih _ _ _ hrec k v hv with hlast | ⟨hnone, htouch⟩
          · exact Or.inl hlast
          · rw [LRU.lookup_touch] at htouch
            exact Or.inr ⟨hnone, htouch⟩

/-- C7: for any filter built by `_create_filter`, a cache hit after a
run from the empty cache is exactly the extracted snapshot of the last
record the run accepted for that key (the cache is written only on
acceptance), and a record whose key is absent from the cache is decided
exactly as with an empty cache: an evicted or never-seen entry behaves
as no cached entry. -/
theorem claim_C7 {M K V : Type} [DecidableEq K]
    (extract_cache_key_value : M → K × V)
    (is_included : V → Option V → Option Bool)
    (maxsize : Nat) (ms : List M) (c' : LRU K V) (kept : List M)
    (k : K) (v : V)
    (hrun : filter_run extract_cache_key_value is_included ⟨maxsize, []⟩ ms =
      some (c', kept))
    (hlook : c'.lookup k = some v) :
    lastValueFor k (kept.map extract_cache_key_value) = some v ∧
    (∀ (c : LRU K V) (m : M),
      c.lookup (extract_cache_key_value m).1 = none →
      (is_included_and_cached extract_cache_key_value is_included c m).map
          (fun p => p.1) =
        (is_included_and_cached extract_cache_key_value is_included
            ⟨c.maxsize, []⟩ m).map (fun p => p.1)) := by
  constructor
  · rcases filter_run_cache_last extract_cache_key_value is_included ms
        ⟨maxsize, []⟩ c' kept hrun k v hlook with h | ⟨_, hempty⟩
    · exact h
    · cases hempty
  · intro c m h
    have hempty : (⟨c.maxsize, []⟩ : LRU K V).lookup
        (extract_cache_key_value m).1 = none := rfl
    have htc : c.touch (extract_cache_key_value m).1 = c := by
      unfold LRU.touch
      rw [show lookupKV c.entries (extract_cache_key_value m).1 = none from h]
    simp only [is_included_and_cached, h, hempty, htc]
    cases hB : is_included (extract_cache_key_value m).2 none <;> simp [hB]

/-- Witness for C7: a one-record run of the event filter. -/
theorem claim_C7_witness :
    filter_run extract_departure_id_and_event (check_event_for_inclusion 300)
      ⟨100, []⟩ [eventMatched1] =
      some (⟨100, [("1", (extract_departure_id_and_event eventMatched1).2)]⟩,
        [eventMatched1]) ∧
    LRU.lookup
      ⟨100, [("1", (extract_departure_id_and_event eventMatched1).2)]⟩ "1" =
      some (extract_departure_id_and_event eventMatched1).2 ∧
    lastValueFor "1" ([eventMatched1].map extract_departure_id_and_event) =
      some (extract_departure_id_and_event eventMatched1).2 :=
  ⟨by decide, by decide,
   (claim_C7 extract_departure_id_and_event (check_event_for_inclusion 300) 100
     [eventMatched1]
     ⟨100, [("1", (extract_departure_id_and_event eventMatched1).2)]⟩
     [eventMatched1] "1" (extract_departure_id_and_event eventMatched1).2
     (by decide) (by decide)).1⟩

/-- The keys of a list in order of first occurrence, each once: the
iteration order of the Python dict built by the arranger. -/
def dedupKeysFirst {K : Type} [DecidableEq K] : List K → List K
  | [] => []
  | k :: t => k :: (dedupKeysFirst t).filter (fun a => decide (¬ a = k))

/-- The arranged values of the records with a given key, in input order. -/
def valuesFor {M K V : Type} [DecidableEq K] (arrange : M → K × V) (k : K)
    (ms : List M) : List V :=
  ms.filterMap
    (fun m => if (arrange m).1 = k then some (arrange m).2 else none)

/-- Membership in the deduplicated key list is membership in the keys. -/
theorem mem_dedupKeysFirst {K : Type} [DecidableEq K] (a : K) :
    ∀ l : List K, a ∈ dedupKeysFirst l ↔ a ∈ l
  | [] => Iff.rfl
  | k :: t => by
    simp only [dedupKeysFirst, List.mem_cons, List.mem_filter,
      mem_dedupKeysFirst a t, decide_eq_true_eq]
    by_cases hk : a = k
    · simp [hk]
    · simp [hk]

/-- The deduplicated key list has no duplicates. -/
theorem nodup_dedupKeysFirst {K : Type} [DecidableEq K] :
    ∀ l : List K, (dedupKeysFirst l).Nodup
  | [] => List.nodup_nil
  | k :: t => by
    rw [dedupKeysFirst]
    refine List.Nodup.cons ?_ (List.Nodup.filter _ (nodup_dedupKeysFirst t))
    intro hmem
    rcases List.mem_filter.mp hmem with ⟨-, hdec⟩
    simp at hdec

/-- Appending one element to the input either leaves the deduplicated
key list unchanged or appends the new key at the end. -/
theorem dedupKeysFirst_append_singleton {K : Type} [DecidableEq K] (k : K) :
    ∀ ks : List K,
      dedupKeysFirst (ks ++ [k]) =
        if k ∈ ks then dedupKeysFirst ks else dedupKeysFirst ks ++ [k]
  | [] => by simp [dedupKeysFirst]
  | a :: ks => by
    rw [List.cons_append, dedupKeysFirst, dedupKeysFirst_append_singleton k ks,
      dedupKeysFirst]
    by_cases hk : k ∈ ks
    · rw [if_pos hk, if_pos (List.mem_cons_of_mem a hk)]
    · rw [if_neg hk]
      by_cases hak : k = a
      · subst hak
        rw [if_pos (List.mem_cons_self k ks), List.filter_append]
        simp
      · rw [if_neg (fun hmem => by
          rcases List.mem_cons.mp hmem with h | h
          · exact hak h
          · exact hk h), List.filter_append]
        simp [hak]

/-- A key absent from the inputs collects no values. -/
theorem valuesFor_eq_nil_of_not_mem {M K V : Type} [DecidableEq K]
    (arrange : M → K × V) (k : K) :
    ∀ ms : List M, k ∉ ms.map (fun m => (arrange m).1) →
      valuesFor arrange k ms = []
  | [], _ => rfl
  | m :: ms, h => by
    rw [List.map_cons] at h
    rw [valuesFor, List.filterMap_cons]
    have hne : ¬ (arrange m).1 = k := fun he => h (by rw [he]; exact List.mem_cons_self k _)
    rw [if_neg hne]
    exact valuesFor_eq_nil_of_not_mem arrange k ms (fun hm => h (List.mem_cons_of_mem _ hm))

/-- Appending one record appends its value to the collection of its key
and leaves other keys untouched. -/
theorem valuesFor_append_singleton {M K V : Type} [DecidableEq K]
    (arrange : M → K × V) (k : K) (ms : List M) (m : M) :
    valuesFor arrange k (ms ++ [m]) =
      valuesFor arrange k ms ++
        (if (arrange m).1 = k then [(arrange m).2] else []) := by
  by_cases hk : (arrange m).1 = k <;>
    simp [valuesFor, List.filterMap_append, List.filterMap_cons, hk]

/-- Inserting under a key absent from the accumulator appends a fresh
entry at the end. -/
theorem insertByKey_of_not_mem {K V : Type} [DecidableEq K] (k : K) (v : V) :
    ∀ l : List (K × List V), (∀ p ∈ l, ¬ p.1 = k) →
      insertByKey k v l = l ++ [(k, [v])]
  | [], _ => rfl
  | p :: t, h => by
    rw [insertByKey, if_neg (h p (List.mem_cons_self p t)),
      insertByKey_of_not_mem k v t (fun q hq => h q (List.mem_cons_of_mem p hq)),
      List.cons_append]

/-- Inserting under a key present in a duplicate-free key graph appends
the value to that key and leaves the other keys untouched. -/
theorem insertByKey_map_graph {K V : Type} [DecidableEq K] (k : K) (v : V)
    (f : K → List V) :
    ∀ l : List K, l.Nodup → k ∈ l →
      insertByKey k v (l.map (fun a => (a, f a))) =
        l.map (fun a => (a, if a = k then f a ++ [v] else f a))
  | [], _, hmem => absurd hmem (List.not_mem_nil k)
  | a :: t, hnd, hmem => by
    rw [List.map_cons, List.map_cons, insertByKey]
    by_cases hak : a = k
    · rw [if_pos (show (a, f a).1 = k from hak)]
      congr 1
      · rw [if_pos hak]
      · refine (List.map_congr_left (fun b hb => ?_)).symm
        have hbk : ¬ b = k := by
          intro hbk
          exact (List.nodup_cons.mp hnd).1 (by rw [hak, ← hbk]; exact hb)
        rw [if_neg hbk]
    · rw [if_neg (show ¬ (a, f a).1 = k from hak),
        insertByKey_map_graph k v f t (List.nodup_cons.mp hnd).2
          (by rcases List.mem_cons.mp hmem with h | h
              · exact absurd h.symm hak
              · exact h)]
      congr 1
      rw [if_neg hak]

/-- Closed form of the arranger: the groups are the keys in
first-occurrence order, each paired with the values of its records in
input order. -/
theorem arrange_by_key_closed {M K V : Type} [DecidableEq K]
    (arrange : M → K × V) (ms : List M) :
    arrange_by_key arrange ms =
      (dedupKeysFirst (ms.map (fun m => (arrange m).1))).map
        (fun k => (k, valuesFor arrange k ms)) := by
  induction ms using List.reverseRecOn with
  | nil => rfl
  | append_singleton ms m ih =>
    have hstep : arrange_by_key arrange (ms ++ [m]) =
        insertByKey (arrange m).1 (arrange m).2 (arrange_by_key arrange ms) := by
      rw [arrange_by_key, List.foldl_append]
      rfl
    rw [hstep, ih, List.map_append, List.map_singleton,
      dedupKeysFirst_append_singleton]
    by_cases hmem : (arrange m).1 ∈ ms.map (fun m => (arrange m).1)
    · rw [if_pos hmem,
        insertByKey_map_graph (arrange m).1 (arrange m).2 _ _
          (nodup_dedupKeysFirst _) ((mem_dedupKeysFirst _ _).mpr hmem)]
      refine List.map_congr_left (fun b hb => ?_)
      rw [valuesFor_append_singleton]
      by_cases hbk : b = (arrange m).1
      · rw [if_pos hbk, if_pos hbk.symm]
      · rw [if_neg hbk, if_neg (fun he => hbk he.symm), List.append_nil]
    · rw [if_neg hmem,
        insertByKey_of_not_mem (arrange m).1 (arrange m).2 _
          (by
            intro p hp
            rcases List.mem_map.mp hp with ⟨b, hb, rfl⟩
            intro hbk
            exact hmem ((mem_dedupKeysFirst _ _).mp (hbk ▸ hb))),
        List.map_append]
      congr 1
      · refine List.map_congr_left (fun b hb => ?_)
        rw [valuesFor_append_singleton]
        have hbk : ¬ (arrange m).1 = b := by
          intro he
          exact hmem (he ▸ (mem_dedupKeysFirst _ _).mp hb)
        rw [if_neg hbk, List.append_nil]
      · rw [List.map_singleton, valuesFor_append_singleton, if_pos rfl,
          valuesFor_eq_nil_of_not_mem arrange _ ms hmem, List.nil_append]

/-- Enriched prediction record for the second stop. -/
def matchedB : Matched :=
  ⟨{ baseRow with DepartureId := "2" }, stopB, journeyA, utcA⟩

/-- When every record of the batch arranges without raising, the
raising arranger loop returns exactly the total arranger loop. -/
theorem arrange_by_key_opt_eq_some {M K V : Type} [DecidableEq K]
    (arrange : M → Option (K × V)) (f : M → K × V) :
    ∀ (ms : List M) (by_key : List (K × List V)),
      (∀ m ∈ ms, arrange m = some (f m)) →
      arrange_by_key_opt arrange ms by_key =
        some (ms.foldl (fun acc m => insertByKey (f m).1 (f m).2 acc) by_key)
  | [], by_key, _ => rfl
  | m :: ms, by_key, h => by
    rw [arrange_by_key_opt, h m (List.mem_cons_self m ms)]
    dsimp only
    rw [List.foldl_cons]
    exact arrange_by_key_opt_eq_some arrange f ms _
      (fun x hx => h x (List.mem_cons_of_mem m hx))

/-- A value found in a group after one insertion was in the accumulator
under the same key or is the inserted value under the inserted key. -/
theorem insertByKey_mem_values {K V : Type} [DecidableEq K] (k0 : K) (v0 : V) :
    ∀ (acc : List (K × List V)) (p : K × List V), p ∈ insertByKey k0 v0 acc →
      ∀ v ∈ p.2, (∃ q ∈ acc, q.1 = p.1 ∧ v ∈ q.2) ∨ (p.1 = k0 ∧ v = v0)
  | [], p, hp, v, hv => by
    rw [insertByKey] at hp
    rcases List.mem_singleton.mp hp with rfl
    rcases List.mem_singleton.mp hv with rfl
    exact Or.inr ⟨rfl, rfl⟩
  | q :: t, p, hp, v, hv => by
    rw [insertByKey] at hp
    by_cases hq : q.1 = k0
    · rw [if_pos hq] at hp
      rcases List.mem_cons.mp hp with h | h
      · subst h
        rcases List.mem_append.mp hv with hv1 | hv1
        · exact Or.inl ⟨q, List.mem_cons_self q t, rfl, hv1⟩
        · rcases List.mem_singleton.mp hv1 with rfl
          exact Or.inr ⟨hq, rfl⟩
      · exact Or.inl ⟨p, List.mem_cons_of_mem q h, rfl, hv⟩
    · rw [if_neg hq] at hp
      rcases List.mem_cons.mp hp with h | h
      · subst h
        exact Or.inl ⟨p, List.mem_cons_self p t, rfl, hv⟩
      · rcases insertByKey_mem_values k0 v0 t p h v hv with
          ⟨q0, hq0, he0, hv0⟩ | hr
        · exact Or.inl ⟨q0, List.mem_cons_of_mem q hq0, he0, hv0⟩
        · exact Or.inr hr

/-- A value found in a group of the raising arranger loop was in the
initial accumulator under the same key or is the arrangement of one of
the input records. -/
theorem arrange_by_key_opt_values {M K V : Type} [DecidableEq K]
    (arrange : M → Option (K × V)) :
    ∀ (ms : List M) (acc groups : List (K × List V)),
      arrange_by_key_opt arrange ms acc = some groups →
      ∀ p ∈ groups, ∀ v ∈ p.2,
        (∃ q ∈ acc, q.1 = p.1 ∧ v ∈ q.2) ∨ (∃ m ∈ ms, arrange m = some (p.1, v))
  | [], acc, groups, h, p, hp, v, hv => by
    rw [arrange_by_key_opt] at h
    injection h with h'
    subst h'
    exact Or.inl ⟨p, hp, rfl, hv⟩
  | m :: ms, acc, groups, h, p, hp, v, hv => by
    rw [arrange_by_key_opt] at h
    cases ha : arrange m with
    | none => rw [ha] at h; cases h
    | some kv =>
      rw [ha] at h
      dsimp only at h
      rcases arrange_by_key_opt_values arrange ms (insertByKey kv.1 kv.2 acc)
          groups h p hp v hv with ⟨q, hq, he, hvm⟩ | ⟨m0, hm0, hme⟩
      · rcases insertByKey_mem_values kv.1 kv.2 acc q hq v hvm with
          ⟨q0, hq0, he0, hv0⟩ | ⟨hk, hv0⟩
        · exact Or.inl ⟨q0, hq0, he0.trans he, hv0⟩
        · refine Or.inr ⟨m, List.mem_cons_self m ms, ?_⟩
          rw [ha]
          have : (p.1, v) = kv := by rw [← he, hk, hv0]
          rw [this]
      · exact Or.inr ⟨m0, List.mem_cons_of_mem m hm0, hme⟩

/-- The event-payload entry of the fixture records at stop 1130101. -/
def eventEntryA : EventEntry :=
  { joreStopId := "1130101",
    joreLineId := "1018",
    joreLineDirection := "1",
    journeyStartTime := "2023-05-01T08:00:00.000+03:00",
    stopOrderInJourney := 2,
    operatingDay := "2023-05-01",
    journeyStartInSecondsIntoOperatingDay := 28800,
    scheduledDepartureTime := "2023-05-01T08:10:00.000+03:00",
    event := "EXPECTED" }

/-- The event-payload entry of the fixture record at stop 1040101. -/
def eventEntryB : EventEntry :=
  { eventEntryA with joreStopId := "1040101" }

/-- C9: each serializer, prediction and event, produces exactly one
`(topic, payload)` pair per distinct stop appearing in the accepted
records, in first-occurrence order, the topic being the configured
middle part followed by the stop identifier and the payload carrying the
shared batch timestamp and exactly the entries of that stop in input
order; for the event serializer this holds whenever every record
arranges without raising, that is whenever every state code is mapped;
in particular two accepted records for stop 1130101 and one for stop
1040101 yield exactly the two messages, in both pipelines. -/
theorem claim_C9 :
    (∀ (mqtt_topic_mid message_timestamp : String) (ms : List Matched),
      serialize_predictions mqtt_topic_mid ms message_timestamp =
        (dedupKeysFirst (ms.map (fun m => m.stop.JoreStopId))).map
          (fun s =>
            (mqtt_topic_mid ++ s,
             { messageTimestamp := message_timestamp,
               predictions := valuesFor arrange_prediction s ms }))) ∧
    serialize_predictions "hfp/prediction/" [predMatched1, predMatched2, matchedB]
        "TS" =
      [("hfp/prediction/1130101",
        { messageTimestamp := "TS",
          predictions := [(arrange_prediction predMatched1).2,
            (arrange_prediction predMatched2).2] }),
       ("hfp/prediction/1040101",
        { messageTimestamp := "TS",
          predictions := [(arrange_prediction matchedB).2] })] ∧
    (∀ (mqtt_topic_mid message_timestamp : String) (ms : List Matched)
        (f : Matched → String × EventEntry),
      (∀ m ∈ ms, arrange_event m = some (f m)) →
      serialize_events mqtt_topic_mid ms message_timestamp =
        some ((dedupKeysFirst (ms.map (fun m => (f m).1))).map
          (fun s =>
            (mqtt_topic_mid ++ s,
             { messageTimestamp := message_timestamp,
               events := valuesFor f s ms })))) ∧
    serialize_events "hfp/event/" [eventMatched1, eventMatched2, matchedB]
        "TS" =
      some [("hfp/event/1130101",
        { messageTimestamp := "TS", events := [eventEntryA, eventEntryA] }),
       ("hfp/event/1040101",
        { messageTimestamp := "TS", events := [eventEntryB] })] := by
  refine ⟨?_, by decide, ?_, by decide⟩
  · intro mqtt_topic_mid message_timestamp ms
    rw [serialize_predictions, arrange_by_key_closed, List.map_map]
    rfl
  · intro mqtt_topic_mid message_timestamp ms f hf
    rw [serialize_events, arrange_by_key_opt_eq_some arrange_event f ms [] hf]
    dsimp only
    have hfold : (ms.foldl (fun acc m => insertByKey (f m).1 (f m).2 acc) []) =
        arrange_by_key f ms := rfl
    rw [hfold, arrange_by_key_closed, List.map_map]
    rfl

/-- Witness for C9 at a concrete batch whose only record arranges
without raising. -/
theorem claim_C9_witness :
    (∀ m ∈ [eventMatched1],
      arrange_event m = some ((arrange_event m).getD ("", eventEntryA))) ∧
    serialize_events "hfp/event/" [eventMatched1] "TS" =
      some ((dedupKeysFirst ([eventMatched1].map
          (fun m => ((arrange_event m).getD ("", eventEntryA)).1))).map
        (fun s =>
          ("hfp/event/" ++ s,
           { messageTimestamp := "TS",
             events := valuesFor
               (fun m => (arrange_event m).getD ("", eventEntryA)) s
               [eventMatched1] }))) :=
  ⟨by decide,
   claim_C9.2.2.1 "hfp/event/" "TS" [eventMatched1]
     (fun m => (arrange_event m).getD ("", eventEntryA)) (by decide)⟩

/-- A record kept by the filter run comes from the input batch. -/
theorem filter_run_kept_mem {M K V : Type} [DecidableEq K]
    (extract_cache_key_value : M → K × V)
    (is_included : V → Option V → Option Bool) :
    ∀ (ms : List M) (c c' : LRU K V) (kept : List M),
      filter_run extract_cache_key_value is_included c ms = some (c', kept) →
      ∀ m ∈ kept, m ∈ ms := by
  intro ms
  induction ms with
  | nil =>
    intro c c' kept h m hm
    rw [filter_run] at h
    injection h with h'
    injection h' with h1 h2
    subst h2
    cases hm
  | cons a ms ih =>
    intro c c' kept h m hm
    rw [filter_run] at h
    cases hstep : is_included_and_cached extract_cache_key_value is_included c a with
    | none => rw [hstep] at h; cases h
    | some p =>
      rw [hstep] at h
      dsimp only at h
      cases hrec : filter_run extract_cache_key_value is_included p.2 ms with
      | none => rw [hrec] at h; cases h
      | some q =>
        rw [hrec] at h
        injection h with h'
        injection h' with h1 h2
        subst h2
        cases hp : p.1 with
        | true =>
          rw [hp] at hm
          simp only [if_pos rfl] at hm
          rcases List.mem_cons.mp hm with h | h
          · exact h ▸ List.mem_cons_self a ms
          · exact List.mem_cons_of_mem a (ih _ _ _ hrec m h)
        | false =>
          rw [hp] at hm
          simp only [if_neg Bool.false_ne_true] at hm
          exact List.mem_cons_of_mem a (ih _ _ _ hrec m hm)

/-- Every entry of a serialized prediction payload is the arrangement of
one of the serialized records. -/
theorem serialize_predictions_entries (mqtt_topic_mid message_timestamp : String)
    (kept : List Matched) (topic : String) (msg : PredictionMessage)
    (hmem : (topic, msg) ∈
      serialize_predictions mqtt_topic_mid kept message_timestamp) :
    ∀ e ∈ msg.predictions, ∃ m ∈ kept, e = (arrange_prediction m).2 := by
  rw [serialize_predictions, arrange_by_key_closed] at hmem
  rcases List.mem_map.mp hmem with ⟨p, hp, heq⟩
  rcases List.mem_map.mp hp with ⟨k, hk, hpk⟩
  subst hpk
  injection heq with h1 h2
  subst h2
  intro e he
  rcases List.mem_filterMap.mp he with ⟨m, hm, hsome⟩
  by_cases hc : (arrange_prediction m).1 = k
  · rw [if_pos hc] at hsome
    exact ⟨m, hm, (Option.some.inj hsome).symm⟩
  · rw [if_neg hc] at hsome
    cases hsome

/-- Every entry of a serialized event payload is the arrangement of one
of the serialized records. -/
theorem serialize_events_entries (mqtt_topic_mid message_timestamp : String)
    (kept : List Matched) (msgs : List (String × EventMessage))
    (hser : serialize_events mqtt_topic_mid kept message_timestamp = some msgs)
    (topic : String) (msg : EventMessage) (hmem : (topic, msg) ∈ msgs) :
    ∀ e ∈ msg.events,
      ∃ m ∈ kept, ∃ p : String × EventEntry,
        arrange_event m = some p ∧ e = p.2 := by
  rw [serialize_events] at hser
  cases harr : arrange_by_key_opt arrange_event kept [] with
  | none => rw [harr] at hser; cases hser
  | some groups =>
    rw [harr] at hser
    dsimp only at hser
    injection hser with h'
    subst h'
    rcases List.mem_map.mp hmem with ⟨p, hp, heq⟩
    injection heq with h1 h2
    subst h2
    intro e he
    rcases arrange_by_key_opt_values arrange_event kept [] groups harr p hp
        e he with ⟨q, hq, _, _⟩ | ⟨m, hm, hme⟩
    · cases hq
    · exact ⟨m, hm, (p.1, e), hme, rfl⟩

/-- A successful join returns the joined row unchanged as its source. -/
theorem get_matches_source (mp : Mappers) (row : Row) (m : Matched)
    (h : get_matches mp row = some m) : m.source = row := by
  simp only [get_matches] at h
  cases hs : lookupKV mp.stopEntries row.JourneyPatternPointGid with
  | none => rw [hs] at h; simp at h
  | some s =>
    rw [hs] at h
    cases hj : lookupKV mp.journeyEntries row.DatedVehicleJourneyId with
    | none => rw [hj] at h; simp at h
    | some j =>
      rw [hj] at h
      cases hu : lookupKV mp.utcOffsetEntries row.DatedVehicleJourneyId with
      | none => rw [hu] at h; simp at h
      | some u =>
        rw [hu] at h
        injection h with h'
        rw [← h']

/-- C6: a row of a non-empty batch whose keys do not all resolve under
the converged snapshots is excluded from the enriched batch, is never
among the records kept by either filter over that batch, contributes no
entry to any serialized event or prediction message, and yet its own
last-modified time still takes part in the maximum that becomes the
next watermark. -/
theorem claim_C6 (w : NaiveDateTime) (rows : List Row) (mp : Mappers)
    (updates : List (Mappers × Bool)) (sF : Mappers) (r : Row)
    (hconv : converged_state mp updates = some sF)
    (hr : r ∈ rows) (hne : rows ≠ [])
    (hmiss : get_matches sF r = none) :
    get_all_matches rows mp updates = some (rows.filterMap (get_matches sF)) ∧
    (∀ m ∈ rows.filterMap (get_matches sF), m.source ≠ r) ∧
    r.LastModifiedUTCDateTime.toMillis ≤ (poll rows w).toMillis ∧
    (∀ (pre : Int) (c c' : LRU String EventValue) (kept : List Matched),
      filter_run extract_departure_id_and_event (check_event_for_inclusion pre)
        c (rows.filterMap (get_matches sF)) = some (c', kept) →
      (∀ m ∈ kept, m.source ≠ r) ∧
      (∀ (mqtt_topic_mid message_timestamp : String)
          (msgs : List (String × EventMessage)) (topic : String)
          (msg : EventMessage),
        serialize_events mqtt_topic_mid kept message_timestamp = some msgs →
        (topic, msg) ∈ msgs →
        ∀ e ∈ msg.events,
          ∃ m ∈ kept,
            (∃ p : String × EventEntry, arrange_event m = some p ∧ e = p.2) ∧
              m.source ≠ r)) ∧
    (∀ (pre ch : Int) (c c' : LRU String PredictionValue) (kept : List Matched),
      filter_run extract_departure_id_and_prediction
        (check_prediction_for_inclusion pre ch) c
        (rows.filterMap (get_matches sF)) = some (c', kept) →
      (∀ m ∈ kept, m.source ≠ r) ∧
      (∀ (mqtt_topic_mid message_timestamp topic : String)
          (msg : PredictionMessage),
        (topic, msg) ∈
          serialize_predictions mqtt_topic_mid kept message_timestamp →
        ∀ e ∈ msg.predictions,
          ∃ m ∈ kept, e = (arrange_prediction m).2 ∧ m.source ≠ r)) := by
  have hexcl : ∀ m ∈ rows.filterMap (get_matches sF), m.source ≠ r := by
    intro m hm hsrc
    rcases List.mem_filterMap.mp hm with ⟨row, hrow, hjoin⟩
    rw [get_matches_source sF row m hjoin] at hsrc
    subst hsrc
    rw [hjoin] at hmiss
    cases hmiss
  refine ⟨get_all_matches_converged updates mp sF rows hconv, hexcl, ?_, ?_, ?_⟩
  · rcases poll_is_max w rows hne with ⟨r0, hr0, heq, hub⟩
    exact hub r hr
  · intro pre c c' kept hrun
    have hkept : ∀ m ∈ kept, m.source ≠ r := fun m hm =>
      hexcl m (filter_run_kept_mem _ _ _ _ _ _ hrun m hm)
    refine ⟨hkept, ?_⟩
    intro mid ts msgs topic msg hser hmsg e he
    rcases serialize_events_entries mid ts kept msgs hser topic msg hmsg e he
      with ⟨m, hm, p, hme, hep⟩
    exact ⟨m, hm, ⟨p, hme, hep⟩, hkept m hm⟩
  · intro pre ch c c' kept hrun
    have hkept : ∀ m ∈ kept, m.source ≠ r := fun m hm =>
      hexcl m (filter_run_kept_mem _ _ _ _ _ _ hrun m hm)
    refine ⟨hkept, ?_⟩
    intro mid ts topic msg hmsg e he
    rcases serialize_predictions_entries mid ts kept topic msg hmsg e he with
      ⟨m, hm, hme⟩
    exact ⟨m, hm, hme, hkept m hm⟩

/-- A row whose stop key is absent from the mapper snapshots. -/
def rowMiss : Row :=
  { baseRow with DepartureId := "9", JourneyPatternPointGid := "99" }

/-- Witness for C6 on a concrete two-row batch with one unresolvable
row. -/
theorem claim_C6_witness :
    get_all_matches [baseRow, rowMiss] mappersA [(mappersA, false)] =
      some ([baseRow, rowMiss].filterMap (get_matches mappersA)) ∧
    (∀ m ∈ [baseRow, rowMiss].filterMap (get_matches mappersA),
      m.source ≠ rowMiss) ∧
    rowMiss.LastModifiedUTCDateTime.toMillis ≤
      (poll [baseRow, rowMiss] ⟨2023, 5, 1, 0, 0, 0, 0⟩).toMillis := by
  have h := claim_C6 ⟨2023, 5, 1, 0, 0, 0, 0⟩ [baseRow, rowMiss] mappersA
    [(mappersA, false)] mappersA rowMiss (by decide) (by decide) (by decide)
    (by decide)
  exact ⟨h.1, h.2.1, h.2.2.1⟩
